import Mathlib

/-!
Shallow embedding of `compose_s3_backup.py` (Compose API Backup to S3 Utility).

The script is a linear Python 2 workflow: `get_backup` queries a backup-listing
API, selects the newest backup for the requested database, follows a download
redirect and writes the file to disk; `upload_to_s3` uploads the file to S3 in
fixed 50 MiB chunks via a multipart upload; the main block wires the stages
together, deleting the local file on success.

Network responses, the size of the downloaded file and the S3 SDK are the
program's environment; they are modelled as explicit inputs.  Side effects
(file creation, part uploads, file deletion) are modelled as an explicit event
trace.  Uncaught Python exceptions are modelled with `Except.error`.
-/

/-! ## Chunked uploader: the arithmetic of `upload_to_s3` -/

/-- The chunk size `52428800` bytes (50 MiB), fixed in the source. -/
def chunk_size : Nat := 52428800

/-- The chunk count `int(math.ceil(source_size / chunk_size))`.  The script runs
under Python 2, where `source_size / chunk_size` on ints is floor division, so
`math.ceil` is applied to an already-floored integer value and
`chunk_count = source_size // chunk_size`. -/
def chunk_count (source_size : Nat) : Nat := source_size / chunk_size

/-- The parts issued by the loop `for i in range(chunk_count + 1)`: for each
`i`, the part number `i + 1`, the offset `chunk_size * i` and the length
`bytes = min(chunk_size, source_size - offset)`.  For every `i ≤ chunk_count`
we have `chunk_size * i ≤ source_size` (see `uploadParts_offset_le`), so the
Python int subtraction never goes negative and agrees with `Nat` subtraction. -/
def uploadParts (source_size : Nat) : List (Nat × Nat × Nat) :=
  (List.range (chunk_count source_size + 1)).map
    (fun i => (i + 1, chunk_size * i, min chunk_size (source_size - chunk_size * i)))

theorem chunk_size_pos : 0 < chunk_size := by decide

/-- Every offset produced by the loop stays within the file. -/
theorem uploadParts_offset_le (S i : Nat) (h : i < chunk_count S + 1) :
    chunk_size * i ≤ S := by
  have hi : i ≤ S / chunk_size := Nat.lt_succ_iff.mp h
  calc chunk_size * i ≤ chunk_size * (S / chunk_size) :=
        Nat.mul_le_mul_left _ hi
    _ = S / chunk_size * chunk_size := Nat.mul_comm _ _
    _ ≤ S := Nat.div_mul_le_self S chunk_size

theorem uploadParts_length (S : Nat) :
    (uploadParts S).length = chunk_count S + 1 := by
  simp [uploadParts]

/-- C7: a 120 MiB file (125829120 bytes) yields exactly 3 parts, numbered
1, 2, 3, with byte lengths 50 MiB, 50 MiB and 20 MiB in that order. -/
theorem upload_120MiB_three_parts :
    uploadParts 125829120 =
      [(1, 0, 52428800), (2, 52428800, 52428800), (3, 104857600, 20971520)] := by
  decide

/-- C1 (failing input): for a file of exactly one chunk (S = 52428800 = C) the
loop issues 2 parts — the second a zero-byte part at offset S — while
`ceil(S / C) = 1`.  The claim that exactly `ceil(S / C)` parts are issued fails
whenever the chunk size divides the file size. -/
theorem upload_parts_off_by_one :
    (uploadParts 52428800).length = 2 ∧
    (52428800 + chunk_size - 1) / chunk_size = 1 ∧
    uploadParts 52428800 = [(1, 0, 52428800), (2, 52428800, 0)] := by
  decide

theorem uploadParts_getD (S k : Nat) (h : k < chunk_count S + 1) :
    (uploadParts S).getD k (0, 0, 0) =
      (k + 1, chunk_size * k, min chunk_size (S - chunk_size * k)) := by
  simp [uploadParts, List.getD_eq_getElem?_getD, List.getElem?_map, List.getElem?_range, h]

theorem sum_min_chunks (S m : Nat) :
    ((List.range m).map (fun i => min chunk_size (S - chunk_size * i))).sum
      = min (chunk_size * m) S := by
  induction m with
  | zero => simp
  | succ m ih =>
    rw [List.range_succ, List.map_append, List.sum_append, ih]
    simp only [List.map_cons, List.map_nil, List.sum_cons, List.sum_nil]
    have hm : chunk_size * (m + 1) = chunk_size * m + chunk_size := Nat.mul_succ ..
    omega

theorem uploadParts_map_bytes (S : Nat) :
    (uploadParts S).map (fun p => p.2.2) =
      (List.range (chunk_count S + 1)).map
        (fun i => min chunk_size (S - chunk_size * i)) := by
  simp [uploadParts, List.map_map, Function.comp]

/-- C3: for every positive file size, the (offset, bytes) ranges computed by
the loop of `upload_to_s3` partition `[0, S)` exactly: the first range starts
at 0, each range starts where the previous one ends (contiguity), earlier
ranges end no later than later ranges start (no overlap), the final range's
length is the remainder `S % chunk_size`, and the lengths sum to `S`. -/
theorem chunk_ranges_partition (S : Nat) (hS : 0 < S) :
    uploadParts S ≠ [] ∧
    ((uploadParts S).getD 0 (0, 0, 0)).2.1 = 0 ∧
    (∀ k, k + 1 < (uploadParts S).length →
      ((uploadParts S).getD (k + 1) (0, 0, 0)).2.1 =
        ((uploadParts S).getD k (0, 0, 0)).2.1 +
          ((uploadParts S).getD k (0, 0, 0)).2.2) ∧
    (∀ i j, i < j → j < (uploadParts S).length →
      ((uploadParts S).getD i (0, 0, 0)).2.1 +
          ((uploadParts S).getD i (0, 0, 0)).2.2 ≤
        ((uploadParts S).getD j (0, 0, 0)).2.1) ∧
    (∃ p, (uploadParts S).getLast? = some p ∧ p.2.2 = S % chunk_size) ∧
    ((uploadParts S).map (fun p => p.2.2)).sum = S := by
  have hlen := uploadParts_length S
  refine ⟨?_, ?_, ?_, ?_, ?_, ?_⟩
  · intro h
    rw [h] at hlen
    simp at hlen
  · rw [uploadParts_getD S 0 (Nat.succ_pos _)]
    exact Nat.mul_zero _
  · intro k hk
    rw [hlen] at hk
    have hk1 : k < chunk_count S + 1 := Nat.lt_of_succ_lt hk
    rw [uploadParts_getD S (k + 1) hk, uploadParts_getD S k hk1]
    dsimp only
    have hoff : chunk_size * (k + 1) ≤ S := uploadParts_offset_le S (k + 1) hk
    have hms : chunk_size * (k + 1) = chunk_size * k + chunk_size := Nat.mul_succ ..
    have hmin : min chunk_size (S - chunk_size * k) = chunk_size :=
      Nat.min_eq_left (by omega)
    rw [hmin]
    exact hms
  · intro i j hij hj
    rw [hlen] at hj
    have hi : i < chunk_count S + 1 := Nat.lt_trans hij hj
    rw [uploadParts_getD S i hi, uploadParts_getD S j hj]
    dsimp only
    have h1 : chunk_size * i + min chunk_size (S - chunk_size * i) ≤
        chunk_size * (i + 1) := by
      have h2 : min chunk_size (S - chunk_size * i) ≤ chunk_size :=
        Nat.min_le_left _ _
      have h3 : chunk_size * (i + 1) = chunk_size * i + chunk_size := Nat.mul_succ ..
      omega
    exact Nat.le_trans h1 (Nat.mul_le_mul_left _ hij)
  · refine ⟨(chunk_count S + 1, chunk_size * chunk_count S,
      min chunk_size (S - chunk_size * chunk_count S)), ?_, ?_⟩
    · rw [List.getLast?_eq_getElem?, hlen]
      have hn : chunk_count S < chunk_count S + 1 := Nat.lt_succ_self _
      simp only [Nat.add_sub_cancel, uploadParts]
      rw [List.getElem?_map]
      rw [List.getElem?_range hn]
      rfl
    · have hdm : chunk_size * (S / chunk_size) + S % chunk_size = S :=
        Nat.div_add_mod S chunk_size
      have hlt : S % chunk_size < chunk_size := Nat.mod_lt _ chunk_size_pos
      simp only [chunk_count]
      omega
  · rw [uploadParts_map_bytes, sum_min_chunks]
    have hub : S < (S / chunk_size + 1) * chunk_size :=
      (Nat.div_lt_iff_lt_mul chunk_size_pos).mp (Nat.lt_succ_self _)
    have : chunk_size * (chunk_count S + 1) = (S / chunk_size + 1) * chunk_size := by
      rw [chunk_count, Nat.mul_comm]
    omega

/-- Witness for `chunk_ranges_partition` at the concrete size S = 1. -/
theorem chunk_ranges_partition_witness :
    0 < 1 ∧
    (uploadParts 1 ≠ [] ∧
    ((uploadParts 1).getD 0 (0, 0, 0)).2.1 = 0 ∧
    (∀ k, k + 1 < (uploadParts 1).length →
      ((uploadParts 1).getD (k + 1) (0, 0, 0)).2.1 =
        ((uploadParts 1).getD k (0, 0, 0)).2.1 +
          ((uploadParts 1).getD k (0, 0, 0)).2.2) ∧
    (∀ i j, i < j → j < (uploadParts 1).length →
      ((uploadParts 1).getD i (0, 0, 0)).2.1 +
          ((uploadParts 1).getD i (0, 0, 0)).2.2 ≤
        ((uploadParts 1).getD j (0, 0, 0)).2.1) ∧
    (∃ p, (uploadParts 1).getLast? = some p ∧ p.2.2 = 1 % chunk_size) ∧
    ((uploadParts 1).map (fun p => p.2.2)).sum = 1) :=
  ⟨by decide, chunk_ranges_partition 1 (by decide)⟩

/-! ## The backup data model and Python's stable `sorted`

`get_backup` sorts the matching backups with `sorted(..., key=lambda k:
k['created_at'])` and takes the last element with `[-1]`.  Python's `sorted`
is guaranteed stable and ascending in the key; any stable ascending sort by
key produces the same list, so it is embedded here as a stable insertion
sort: each element is inserted, in original order, after all elements whose
key is less than or equal to its own. -/

/-- Insert `x` into an ascending (by `key`) list, after all elements whose
key is `≤ key x` — the placement a stable sort gives an element arriving
after the ones already in the list. -/
def insertByKey (key : α → Nat) (x : α) : List α → List α
  | [] => [x]
  | y :: ys => if key x < key y then x :: y :: ys else y :: insertByKey key x ys

/-- Python's `sorted(l, key=key)`: stable ascending sort by `key`. -/
def pySorted (key : α → Nat) (l : List α) : List α :=
  l.foldl (fun acc x => insertByKey key x acc) []

/-- The running maximum of `cur :: l`, taking a later element on ties — the
element a stable ascending sort leaves in last position. -/
def lastArgmaxAux (key : α → Nat) (cur : α) : List α → α
  | [] => cur
  | x :: xs => lastArgmaxAux key (if key cur ≤ key x then x else cur) xs

theorem mem_insertByKey (key : α → Nat) (x z : α) (l : List α) :
    z ∈ insertByKey key x l ↔ z = x ∨ z ∈ l := by
  induction l with
  | nil => simp [insertByKey]
  | cons y ys ih =>
    by_cases h : key x < key y
    · simp [insertByKey, h]
    · simp [insertByKey, h, ih]
      tauto

theorem insertByKey_pairwise (key : α → Nat) (x : α) (l : List α)
    (hl : l.Pairwise (fun a b => key a ≤ key b)) :
    (insertByKey key x l).Pairwise (fun a b => key a ≤ key b) := by
  induction l with
  | nil => simp [insertByKey]
  | cons y ys ih =>
    rw [List.pairwise_cons] at hl
    by_cases h : key x < key y
    · rw [insertByKey, if_pos h, List.pairwise_cons]
      refine ⟨?_, List.pairwise_cons.mpr hl⟩
      intro z hz
      rcases List.mem_cons.mp hz with hz | hz
      · exact hz ▸ Nat.le_of_lt h
      · exact Nat.le_trans (Nat.le_of_lt h) (hl.1 z hz)
    · rw [insertByKey, if_neg h, List.pairwise_cons]
      refine ⟨?_, ih hl.2⟩
      intro z hz
      rcases (mem_insertByKey key x z ys).mp hz with hz | hz
      · exact hz ▸ Nat.le_of_not_lt h
      · exact hl.1 z hz

theorem insertByKey_getLast? (key : α → Nat) (x : α) (l : List α) (m : α)
    (hl : l.Pairwise (fun a b => key a ≤ key b)) (hm : l.getLast? = some m) :
    (insertByKey key x l).getLast? = some (if key m ≤ key x then x else m) := by
  induction l generalizing m with
  | nil => simp at hm
  | cons y ys ih =>
    rw [List.pairwise_cons] at hl
    by_cases h : key x < key y
    · rw [insertByKey, if_pos h]
      have hmem : m ∈ y :: ys := by
        obtain ⟨hne, heq⟩ :=
          List.mem_getLast?_eq_getLast (show m ∈ (y :: ys).getLast? from hm)
        exact heq ▸ List.getLast_mem hne
      have hym : key y ≤ key m := by
        rcases List.mem_cons.mp hmem with hmy | hmy
        · exact hmy ▸ Nat.le_refl _
        · exact hl.1 m hmy
      have hnot : ¬ key m ≤ key x := fun hle =>
        Nat.lt_irrefl _ (Nat.lt_of_lt_of_le h (Nat.le_trans hym hle))
      rw [if_neg hnot]
      rw [List.getLast?_cons_cons]
      exact hm
    · rw [insertByKey, if_neg h]
      cases ys with
      | nil =>
        have hmy : m = y := by
          simp [List.getLast?] at hm
          exact hm.symm
        have hyx : key m ≤ key x := hmy ▸ Nat.le_of_not_lt h
        rw [if_pos hyx]
        rfl
      | cons z zs =>
        rw [List.getLast?_cons_cons] at hm
        have hrec := ih m hl.2 hm
        cases hzz : insertByKey key x (z :: zs) with
        | nil =>
          have hx : x ∈ ([] : List α) := by
            rw [← hzz]
            exact (mem_insertByKey key x x (z :: zs)).mpr (Or.inl rfl)
          simp at hx
        | cons a as =>
          rw [hzz] at hrec
          rw [List.getLast?_cons_cons]
          exact hrec

theorem pySorted_foldl_getLast? (key : α → Nat) :
    ∀ (l acc : List α) (m : α),
      acc.Pairwise (fun a b => key a ≤ key b) → acc.getLast? = some m →
      ((l.foldl (fun a x => insertByKey key x a) acc).Pairwise
          (fun a b => key a ≤ key b) ∧
        (l.foldl (fun a x => insertByKey key x a) acc).getLast? =
          some (lastArgmaxAux key m l))
  | [], acc, m, hp, hm => ⟨hp, by rw [List.foldl_nil, hm]; simp [lastArgmaxAux]⟩
  | x :: xs, acc, m, hp, hm => by
    rw [List.foldl_cons]
    have hp2 := insertByKey_pairwise key x acc hp
    have hm2 := insertByKey_getLast? key x acc m hp hm
    exact pySorted_foldl_getLast? key xs (insertByKey key x acc) _ hp2 hm2

theorem pySorted_getLast? (key : α → Nat) (x : α) (xs : List α) :
    (pySorted key (x :: xs)).getLast? = some (lastArgmaxAux key x xs) := by
  show ((x :: xs).foldl (fun a y => insertByKey key y a) []).getLast? = _
  rw [List.foldl_cons]
  exact (pySorted_foldl_getLast? key xs (insertByKey key x [])
    x (by simp [insertByKey]) (by simp [insertByKey])).2

theorem lastArgmaxAux_mem (key : α → Nat) :
    ∀ (l : List α) (cur : α), lastArgmaxAux key cur l ∈ cur :: l
  | [], _ => List.mem_singleton.mpr rfl
  | x :: xs, cur => by
    show lastArgmaxAux key (if key cur ≤ key x then x else cur) xs ∈ cur :: x :: xs
    have h := lastArgmaxAux_mem key xs (if key cur ≤ key x then x else cur)
    rcases List.mem_cons.mp h with h | h
    · rw [h]
      split <;> simp
    · exact List.mem_cons_of_mem _ (List.mem_cons_of_mem _ h)

theorem lastArgmaxAux_le (key : α → Nat) :
    ∀ (l : List α) (cur y : α), y ∈ cur :: l →
      key y ≤ key (lastArgmaxAux key cur l)
  | [], cur, y, hy => by
    rcases List.mem_cons.mp hy with h | h
    · exact h ▸ Nat.le_refl _
    · simp at h
  | x :: xs, cur, y, hy => by
    show key y ≤ key (lastArgmaxAux key (if key cur ≤ key x then x else cur) xs)
    have hrec := lastArgmaxAux_le key xs (if key cur ≤ key x then x else cur)
      (if key cur ≤ key x then x else cur) (List.mem_cons_self _ _)
    rcases List.mem_cons.mp hy with h | h
    · have hc : key cur ≤ key (if key cur ≤ key x then x else cur) := by
        split
        · omega
        · exact Nat.le_refl _
      rw [h]
      exact Nat.le_trans hc hrec
    · rcases List.mem_cons.mp h with h2 | h2
      · have hc : key x ≤ key (if key cur ≤ key x then x else cur) := by
          split
          · exact Nat.le_refl _
          · omega
        rw [h2]
        exact Nat.le_trans hc hrec
      · exact lastArgmaxAux_le key xs _ y (List.mem_cons_of_mem _ h2)

theorem lastArgmaxAux_split (key : α → Nat) :
    ∀ (l : List α) (cur : α),
      ∃ l1 l2, cur :: l = l1 ++ lastArgmaxAux key cur l :: l2 ∧
        ∀ y ∈ l2, key y < key (lastArgmaxAux key cur l)
  | [], cur => ⟨[], [], rfl, by simp⟩
  | x :: xs, cur => by
    simp only [lastArgmaxAux]
    by_cases hc : key cur ≤ key x
    · rw [if_pos hc]
      obtain ⟨l1, l2, heq, hlt⟩ := lastArgmaxAux_split key xs x
      exact ⟨cur :: l1, l2, by rw [List.cons_append, ← heq], hlt⟩
    · rw [if_neg hc]
      obtain ⟨l1, l2, heq, hlt⟩ := lastArgmaxAux_split key xs cur
      cases l1 with
      | nil =>
        rw [List.nil_append] at heq
        have h1 : cur = lastArgmaxAux key cur xs := (List.cons_eq_cons.mp heq).1
        have h2 : xs = l2 := (List.cons_eq_cons.mp heq).2
        refine ⟨[], x :: xs, by rw [List.nil_append, ← h1], ?_⟩
        intro y hy
        rcases List.mem_cons.mp hy with hy | hy
        · rw [hy, ← h1]
          omega
        · exact hlt y (h2 ▸ hy)
      | cons a l1' =>
        have h1 : cur = a := (List.cons_eq_cons.mp heq).1
        have h2 : xs = l1' ++ lastArgmaxAux key cur xs :: l2 :=
          (List.cons_eq_cons.mp heq).2
        refine ⟨cur :: x :: l1', l2, ?_, hlt⟩
        rw [List.cons_append, List.cons_append, ← h2]

/-! ## Backup data model (`get_backup`) -/

/-- One entry of the listing response JSON: `{id, database_names, created_at,
filename}`.  `created_at` timestamps are modelled as naturals ordered by
creation time; the script uses them only as the sort key
`lambda k: k['created_at']`. -/
structure Backup where
  id : String
  database_names : List String
  created_at : Nat
  filename : String
deriving DecidableEq

/-- The filter loop of `get_backup`: keep the backups with
`database_name in backup['database_names']`. -/
def matchingBackups (database_name : String) (all_backups : List Backup) :
    List Backup :=
  all_backups.filter (fun b => b.database_names.contains database_name)

/-- The sort key `lambda k: k['created_at']`. -/
def backupKey (b : Backup) : Nat := b.created_at

/-- The selection `sorted(backups_for_this_database, key=lambda k: k['created_at'])[-1]`:
last element of the stable ascending sort; `none` models the `IndexError`
that `[-1]` raises on an empty list. -/
def selectLatest (database_name : String) (all_backups : List Backup) :
    Option Backup :=
  (pySorted backupKey (matchingBackups database_name all_backups)).getLast?

/-- An uncaught Python exception. -/
inductive PyErr where
  | indexError
  | keyError
deriving DecidableEq

/-- The observable side effects of a run, in order. -/
inductive Event where
  | fileCreated (name : String)
  | uploadInitiated (bucket s3key : String)
  | partUploaded (part_num offset bytes : Nat)
  | uploadCompleted
  | fileDeleted (name : String)
deriving DecidableEq

/-- The network environment `get_backup` runs against: the status of the
listing response and its JSON body, and — per backup id — the status and
`location` header of the `GET .../backups/{id}/download` response (the header
is `none` when absent, in which case `r2.headers['location']` raises). -/
structure FetchEnv where
  listing_status : Nat
  all_backups : List Backup
  download_status : String → Nat
  location : String → Option String

/-- The function `get_backup(database_name, account_name, oauth_token)`: list the backups
(`None` unless status 200), filter by database name, select the newest via
`sorted(...)[-1]` (raising `IndexError` when nothing matches), request the
download endpoint without following redirects (`None` unless status 302),
read the `location` header, stream the file to disk (the `fileCreated`
event) and return the backup's filename. -/
def get_backup (database_name : String) (env : FetchEnv) :
    List Event × Except PyErr (Option String) :=
  if env.listing_status ≠ 200 then
    ([], Except.ok none)
  else
    match selectLatest database_name env.all_backups with
    | none => ([], Except.error PyErr.indexError)
    | some latest =>
      if env.download_status latest.id ≠ 302 then
        ([], Except.ok none)
      else
        match env.location latest.id with
        | none => ([], Except.error PyErr.keyError)
        | some _ =>
          ([Event.fileCreated latest.filename], Except.ok (some latest.filename))

/-- The function `upload_to_s3(s3key, filename, bucket, aws_key, aws_secret)`: initiate a
multipart upload, send the parts of `uploadParts source_size` (reading
`filename` through bounded file views), complete the upload and return 0.
`source_size` is `os.stat(filename).st_size`; the AWS credentials play no
role beyond being passed to the SDK and are omitted. -/
def upload_to_s3 (s3key filename bucket : String) (source_size : Nat) :
    List Event × Option Nat :=
  (Event.uploadInitiated bucket s3key ::
      ((uploadParts source_size).map
          (fun p => Event.partUploaded p.1 p.2.1 p.2.2) ++
        [Event.uploadCompleted]),
    some 0)

/-- How a run of the `__main__` block ends.  CPython terminates with exit
status 1 both for `sys.exit(1)` and for an uncaught exception. -/
inductive ExitReason where
  | fetchFailed
  | crashed (e : PyErr)
  | s3Failed
  | success
deriving DecidableEq

def exitCode : ExitReason → Nat
  | ExitReason.success => 0
  | _ => 1

/-- The `__main__` environment: the parsed CLI arguments that matter for the
control flow, the fetch-stage network environment and the size the downloaded
file would have. -/
structure MainEnv where
  database_name : String
  bucket : String
  pfx : String
  fetch : FetchEnv
  file_size : Nat

/-- The `__main__` block: fetch, exit 1 if the fetch returned `None` (crash
if it raised), upload with key `prefix + filename`, exit 1 if the upload
returned `None`, then delete the local file and exit 0. -/
def main_flow (env : MainEnv) : ExitReason × List Event :=
  let r := get_backup env.database_name env.fetch
  match r.2 with
  | Except.error e => (ExitReason.crashed e, r.1)
  | Except.ok none => (ExitReason.fetchFailed, r.1)
  | Except.ok (some filename) =>
    let u := upload_to_s3 (env.pfx ++ filename) filename env.bucket env.file_size
    match u.2 with
    | none => (ExitReason.s3Failed, r.1 ++ u.1)
    | some _ => (ExitReason.success, r.1 ++ u.1 ++ [Event.fileDeleted filename])

/-- Which of the three stages an effect belongs to: 1 fetch, 2 upload,
3 cleanup. -/
def stageOf : Event → Nat
  | Event.fileCreated _ => 1
  | Event.fileDeleted _ => 3
  | _ => 2

/-- The fetch-stage failures of the claim: listing status not 200, no backup
matching the database name, or a non-302 download-redirect status. -/
def fetchFails (database_name : String) (env : FetchEnv) : Prop :=
  env.listing_status ≠ 200 ∨
  matchingBackups database_name env.all_backups = [] ∨
  ∀ backup_id, env.download_status backup_id ≠ 302

theorem selectLatest_of_no_match (database_name : String)
    (all_backups : List Backup)
    (h : matchingBackups database_name all_backups = []) :
    selectLatest database_name all_backups = none := by
  rw [selectLatest, h]
  rfl

/-- Case analysis on the early returns of `get_backup`. -/
theorem get_backup_shape (database_name : String) (env : FetchEnv) :
    get_backup database_name env = ([], Except.ok none) ∨
    get_backup database_name env = ([], Except.error PyErr.indexError) ∨
    get_backup database_name env = ([], Except.error PyErr.keyError) ∨
    (∃ latest, selectLatest database_name env.all_backups = some latest ∧
      env.listing_status = 200 ∧
      env.download_status latest.id = 302 ∧
      get_backup database_name env =
        ([Event.fileCreated latest.filename],
          Except.ok (some latest.filename))) := by
  unfold get_backup
  split
  next h1 => exact Or.inl rfl
  next h1 =>
    split
    next hsel => exact Or.inr (Or.inl rfl)
    next latest hsel =>
      split
      next h2 => exact Or.inl rfl
      next h2 =>
        split
        next hloc => exact Or.inr (Or.inr (Or.inl rfl))
        next loc hloc =>
          exact Or.inr (Or.inr (Or.inr
            ⟨latest, hsel, by omega, by omega, rfl⟩))

/-! ## Claims about the backup selection -/

/-- C5: whenever at least one backup matches the queried database name, the
backup selected by `sorted(...)[-1]` is a matching backup (its
`database_names` contain the queried name) whose `created_at` is maximal
among the matching backups; non-matching backups are never selected. -/
theorem selects_max_created_at (database_name : String)
    (all_backups : List Backup)
    (h : matchingBackups database_name all_backups ≠ []) :
    ∃ b, selectLatest database_name all_backups = some b ∧
      b ∈ matchingBackups database_name all_backups ∧
      b.database_names.contains database_name = true ∧
      ∀ b2 ∈ matchingBackups database_name all_backups,
        b2.created_at ≤ b.created_at := by
  obtain ⟨x, xs, hxx⟩ := List.exists_cons_of_ne_nil h
  have hmem : lastArgmaxAux backupKey x xs ∈
      matchingBackups database_name all_backups := by
    rw [hxx]
    exact lastArgmaxAux_mem backupKey xs x
  refine ⟨lastArgmaxAux backupKey x xs, ?_, hmem, ?_, ?_⟩
  · rw [selectLatest, hxx, pySorted_getLast?]
  · exact (List.mem_filter.mp hmem).2
  · intro b2 hb2
    rw [hxx] at hb2
    exact lastArgmaxAux_le backupKey xs x b2 hb2

def backupMydbT1 : Backup :=
  { id := "b1", database_names := ["mydb"], created_at := 1,
    filename := "mydb.tar.gz" }

def backupOtherT2 : Backup :=
  { id := "b2", database_names := ["otherdb"], created_at := 2,
    filename := "otherdb.tar.gz" }

/-- Witness for `selects_max_created_at`: the spec's scenario with a "mydb"
backup at T1 = 1 and an "otherdb" backup at T2 = 2 > T1; selection for
"mydb" considers only the T1 backup. -/
theorem selects_max_created_at_witness :
    matchingBackups "mydb" [backupMydbT1, backupOtherT2] ≠ [] ∧
    (∃ b, selectLatest "mydb" [backupMydbT1, backupOtherT2] = some b ∧
      b ∈ matchingBackups "mydb" [backupMydbT1, backupOtherT2] ∧
      b.database_names.contains "mydb" = true ∧
      ∀ b2 ∈ matchingBackups "mydb" [backupMydbT1, backupOtherT2],
        b2.created_at ≤ b.created_at) :=
  ⟨by decide, selects_max_created_at "mydb" [backupMydbT1, backupOtherT2]
    (by decide)⟩

/-- C10: the sort is stable and `[-1]` takes the last element, so among the
matching backups the selected one `b` splits the matching list as
`l1 ++ b :: l2` where everything in `l2` has strictly smaller `created_at`:
on ties of the maximal `created_at`, the backup appearing last in listing
order is selected, deterministically. -/
theorem tie_selects_last_in_order (database_name : String)
    (all_backups : List Backup)
    (h : matchingBackups database_name all_backups ≠ []) :
    ∃ b l1 l2, selectLatest database_name all_backups = some b ∧
      matchingBackups database_name all_backups = l1 ++ b :: l2 ∧
      (∀ b2 ∈ matchingBackups database_name all_backups,
        b2.created_at ≤ b.created_at) ∧
      ∀ y ∈ l2, y.created_at < b.created_at := by
  obtain ⟨x, xs, hxx⟩ := List.exists_cons_of_ne_nil h
  obtain ⟨l1, l2, heq, hlt⟩ := lastArgmaxAux_split backupKey xs x
  refine ⟨lastArgmaxAux backupKey x xs, l1, l2, ?_, ?_, ?_, hlt⟩
  · rw [selectLatest, hxx, pySorted_getLast?]
  · rw [hxx]
    exact heq
  · intro b2 hb2
    rw [hxx] at hb2
    exact lastArgmaxAux_le backupKey xs x b2 hb2

def backupMydbTie1 : Backup :=
  { id := "b1", database_names := ["mydb"], created_at := 7,
    filename := "first.tar.gz" }

def backupMydbTie2 : Backup :=
  { id := "b2", database_names := ["mydb"], created_at := 7,
    filename := "second.tar.gz" }

/-- Witness for `tie_selects_last_in_order`: two "mydb" backups share the
maximal `created_at`. -/
theorem tie_selects_last_in_order_witness :
    matchingBackups "mydb" [backupMydbTie1, backupMydbTie2] ≠ [] ∧
    (∃ b l1 l2,
      selectLatest "mydb" [backupMydbTie1, backupMydbTie2] = some b ∧
      matchingBackups "mydb" [backupMydbTie1, backupMydbTie2] = l1 ++ b :: l2 ∧
      (∀ b2 ∈ matchingBackups "mydb" [backupMydbTie1, backupMydbTie2],
        b2.created_at ≤ b.created_at) ∧
      ∀ y ∈ l2, y.created_at < b.created_at) :=
  ⟨by decide, tie_selects_last_in_order "mydb" [backupMydbTie1, backupMydbTie2]
    (by decide)⟩

/-- On a tie, the selected backup is concretely the later-listed one. -/
theorem tie_selects_second_concretely :
    selectLatest "mydb" [backupMydbTie1, backupMydbTie2] =
      some backupMydbTie2 := by
  decide

/-! ## Claims about `get_backup` failures and the main workflow -/

def noMatchEnv : FetchEnv :=
  { listing_status := 200,
    all_backups :=
      [{ id := "b9", database_names := ["otherdb"], created_at := 3,
         filename := "otherdb.tar.gz" }],
    download_status := fun _ => 302,
    location := fun _ => some "https://cdn.example.com/otherdb.tar.gz" }

def noMatchMainEnv : MainEnv :=
  { database_name := "mydb", bucket := "bkt", pfx := "",
    fetch := noMatchEnv, file_size := 0 }

/-- C2 (failing input): with a successful listing in which no backup's
`database_names` contains "mydb", `get_backup` raises an uncaught
`IndexError` (from `sorted([])[-1]`) rather than returning `None`, and the
run crashes with a nonzero exit status. -/
theorem get_backup_no_match_raises :
    matchingBackups "mydb" noMatchEnv.all_backups = [] ∧
    get_backup "mydb" noMatchEnv = ([], Except.error PyErr.indexError) ∧
    main_flow noMatchMainEnv =
      (ExitReason.crashed PyErr.indexError, []) ∧
    exitCode (main_flow noMatchMainEnv).1 = 1 := by
  refine ⟨by decide, rfl, rfl, rfl⟩

/-- C4: when the listing succeeds and some backup matches the database name
but the download-redirect endpoint answers with a status other than 302,
`get_backup` returns the failure signal `None` having performed no effect
(in particular no local file is created), and the run exits with code 1
without attempting any upload. -/
theorem non_redirect_fails_before_upload (env : MainEnv)
    (h200 : env.fetch.listing_status = 200)
    (hm : matchingBackups env.database_name env.fetch.all_backups ≠ [])
    (hdl : ∀ backup_id, env.fetch.download_status backup_id ≠ 302) :
    get_backup env.database_name env.fetch = ([], Except.ok none) ∧
    main_flow env = (ExitReason.fetchFailed, []) ∧
    exitCode (main_flow env).1 = 1 := by
  have hgb : get_backup env.database_name env.fetch = ([], Except.ok none) := by
    obtain ⟨x, xs, hxx⟩ := List.exists_cons_of_ne_nil hm
    have hsel : selectLatest env.database_name env.fetch.all_backups =
        some (lastArgmaxAux backupKey x xs) := by
      rw [selectLatest, hxx, pySorted_getLast?]
    unfold get_backup
    rw [if_neg (show ¬ env.fetch.listing_status ≠ 200 by omega)]
    simp only [hsel]
    rw [if_pos (hdl _)]
  refine ⟨hgb, ?_, ?_⟩
  · simp [main_flow, hgb]
  · simp [main_flow, hgb, exitCode]

def nonRedirectEnv : MainEnv :=
  { database_name := "mydb", bucket := "bkt", pfx := "",
    fetch := { listing_status := 200,
               all_backups := [backupMydbT1],
               download_status := fun _ => 200,
               location := fun _ => none },
    file_size := 0 }

/-- Witness for `non_redirect_fails_before_upload`: the download endpoint
answers 200 instead of 302. -/
theorem non_redirect_fails_before_upload_witness :
    (nonRedirectEnv.fetch.listing_status = 200 ∧
      matchingBackups nonRedirectEnv.database_name
        nonRedirectEnv.fetch.all_backups ≠ [] ∧
      ∀ backup_id, nonRedirectEnv.fetch.download_status backup_id ≠ 302) ∧
    (get_backup nonRedirectEnv.database_name nonRedirectEnv.fetch =
        ([], Except.ok none) ∧
      main_flow nonRedirectEnv = (ExitReason.fetchFailed, []) ∧
      exitCode (main_flow nonRedirectEnv).1 = 1) :=
  ⟨⟨rfl, by decide, fun _ => show (200 : Nat) ≠ 302 by decide⟩,
    non_redirect_fails_before_upload nonRedirectEnv rfl (by decide)
      (fun _ => show (200 : Nat) ≠ 302 by decide)⟩

theorem stageOf_ge_one (e : Event) : 1 ≤ stageOf e := by
  cases e <;> simp [stageOf]

theorem upload_map_stage (S : Nat) :
    ∀ e ∈ (uploadParts S).map (fun p => Event.partUploaded p.1 p.2.1 p.2.2),
      stageOf e = 2 := by
  intro e he
  obtain ⟨p, _, rfl⟩ := List.mem_map.mp he
  rfl

theorem pairwise_stage_const (l : List Event) (h : ∀ e ∈ l, stageOf e = 2) :
    List.Pairwise (fun a b => stageOf a ≤ stageOf b) l := by
  induction l with
  | nil => exact List.Pairwise.nil
  | cons a as ih =>
    refine List.pairwise_cons.mpr
      ⟨?_, ih (fun e he => h e (List.mem_cons_of_mem _ he))⟩
    intro b hb
    rw [h a (List.mem_cons_self _ _), h b (List.mem_cons_of_mem _ hb)]

/-- The full trace and outcome of a successful run. -/
theorem main_flow_success (env : MainEnv) (latest : Backup)
    (hc : get_backup env.database_name env.fetch =
      ([Event.fileCreated latest.filename],
        Except.ok (some latest.filename))) :
    main_flow env = (ExitReason.success,
      Event.fileCreated latest.filename ::
        Event.uploadInitiated env.bucket (env.pfx ++ latest.filename) ::
        ((uploadParts env.file_size).map
            (fun p => Event.partUploaded p.1 p.2.1 p.2.2) ++
          [Event.uploadCompleted, Event.fileDeleted latest.filename])) := by
  simp [main_flow, hc, upload_to_s3]

/-- C6: the three stages run strictly in order — the event trace is monotone
in the stage number (fetch 1, upload 2, cleanup 3) — and every fetch-stage
failure (listing status ≠ 200, no matching backup, or a non-302
download-redirect status) ends the run with a nonzero exit status and no
upload event in the trace. -/
theorem stages_in_order_and_fail_fast (env : MainEnv) :
    List.Pairwise (fun a b => stageOf a ≤ stageOf b) (main_flow env).2 ∧
    (fetchFails env.database_name env.fetch →
      exitCode (main_flow env).1 ≠ 0 ∧
      ∀ e ∈ (main_flow env).2, stageOf e ≠ 2) := by
  rcases get_backup_shape env.database_name env.fetch with
    hc | hc | hc | ⟨latest, hsel, h200, h302, hc⟩
  · refine ⟨by simp [main_flow, hc], fun _ => ⟨by simp [main_flow, hc, exitCode], ?_⟩⟩
    intro e he
    simp [main_flow, hc] at he
  · refine ⟨by simp [main_flow, hc], fun _ => ⟨by simp [main_flow, hc, exitCode], ?_⟩⟩
    intro e he
    simp [main_flow, hc] at he
  · refine ⟨by simp [main_flow, hc], fun _ => ⟨by simp [main_flow, hc, exitCode], ?_⟩⟩
    intro e he
    simp [main_flow, hc] at he
  · have hmf := main_flow_success env latest hc
    constructor
    · rw [hmf]
      refine List.pairwise_cons.mpr ⟨?_, List.pairwise_cons.mpr ⟨?_, ?_⟩⟩
      · intro e _
        have h1 := stageOf_ge_one e
        simpa [stageOf] using h1
      · intro e he
        rcases List.mem_append.mp he with he | he
        · have h2 := upload_map_stage env.file_size e he
          rw [h2]
          simp [stageOf]
        · simp only [List.mem_cons, List.mem_singleton] at he
          rcases he with rfl | rfl | he
          · simp [stageOf]
          · simp [stageOf]
          · simp at he
      · refine List.pairwise_append.mpr
          ⟨pairwise_stage_const _ (upload_map_stage env.file_size), ?_, ?_⟩
        · refine List.pairwise_cons.mpr ⟨?_, List.pairwise_singleton ..⟩
          intro b hb
          rw [List.mem_singleton.mp hb]
          simp [stageOf]
        · intro a ha b hb
          have h2 := upload_map_stage env.file_size a ha
          simp only [List.mem_cons, List.mem_singleton] at hb
          rw [h2]
          rcases hb with rfl | rfl | hb
          · simp [stageOf]
          · simp [stageOf]
          · simp at hb
    · intro hf
      exfalso
      rcases hf with hf | hf | hf
      · exact hf h200
      · rw [selectLatest_of_no_match env.database_name
          env.fetch.all_backups hf] at hsel
        exact Option.noConfusion hsel
      · exact hf latest.id h302

def listingFailEnv : MainEnv :=
  { database_name := "mydb", bucket := "bkt", pfx := "",
    fetch := { listing_status := 500, all_backups := [],
               download_status := fun _ => 302, location := fun _ => none },
    file_size := 0 }

/-- Witness for `stages_in_order_and_fail_fast`: the listing endpoint answers
500. -/
theorem stages_in_order_and_fail_fast_witness :
    fetchFails listingFailEnv.database_name listingFailEnv.fetch ∧
    (List.Pairwise (fun a b => stageOf a ≤ stageOf b)
        (main_flow listingFailEnv).2 ∧
      (exitCode (main_flow listingFailEnv).1 ≠ 0 ∧
        ∀ e ∈ (main_flow listingFailEnv).2, stageOf e ≠ 2)) := by
  have hf : fetchFails listingFailEnv.database_name listingFailEnv.fetch :=
    Or.inl (by decide)
  exact ⟨hf, (stages_in_order_and_fail_fast listingFailEnv).1,
    (stages_in_order_and_fail_fast listingFailEnv).2 hf⟩

/-- C8: when the fetch stage returns a filename (and the upload, which cannot
fail in the model, completes), the local backup file is deleted and the run
exits with code 0; the S3 object key used for the upload is the prefix
argument concatenated with the backup filename. -/
theorem success_path_deletes_and_exits_zero (env : MainEnv) (fn : String)
    (h : (get_backup env.database_name env.fetch).2 = Except.ok (some fn)) :
    exitCode (main_flow env).1 = 0 ∧
    Event.fileDeleted fn ∈ (main_flow env).2 ∧
    Event.uploadInitiated env.bucket (env.pfx ++ fn) ∈ (main_flow env).2 := by
  rcases get_backup_shape env.database_name env.fetch with
    hc | hc | hc | ⟨latest, hsel, h200, h302, hc⟩
  · rw [hc] at h
    simp at h
  · rw [hc] at h
    simp at h
  · rw [hc] at h
    simp at h
  · have hfn : latest.filename = fn := by
      rw [hc] at h
      simpa using h
    subst hfn
    have hmf := main_flow_success env latest hc
    rw [hmf]
    refine ⟨rfl, ?_, ?_⟩
    · simp
    · simp

def successEnv : MainEnv :=
  { database_name := "mydb", bucket := "bkt", pfx := "pre/",
    fetch := { listing_status := 200, all_backups := [backupMydbT1],
               download_status := fun _ => 302,
               location := fun _ => some "https://cdn.example.com/f" },
    file_size := 5 }

/-- Witness for `success_path_deletes_and_exits_zero` on a fully successful
run. -/
theorem success_path_deletes_and_exits_zero_witness :
    (get_backup successEnv.database_name successEnv.fetch).2 =
      Except.ok (some "mydb.tar.gz") ∧
    (exitCode (main_flow successEnv).1 = 0 ∧
      Event.fileDeleted "mydb.tar.gz" ∈ (main_flow successEnv).2 ∧
      Event.uploadInitiated successEnv.bucket
          (successEnv.pfx ++ "mydb.tar.gz") ∈ (main_flow successEnv).2) :=
  ⟨rfl, success_path_deletes_and_exits_zero successEnv "mydb.tar.gz" rfl⟩

/-- C9: `upload_to_s3` always returns 0 when it returns, never `None`; hence
`s3_success is None` is always false and the `Failure with S3 upload` exit-1
branch of the main block is unreachable. -/
theorem upload_returns_zero_branch_unreachable :
    (∀ s3key filename bucket source_size,
      (upload_to_s3 s3key filename bucket source_size).2 = some 0) ∧
    ∀ env, (main_flow env).1 ≠ ExitReason.s3Failed := by
  refine ⟨fun _ _ _ _ => rfl, ?_⟩
  intro env
  rcases get_backup_shape env.database_name env.fetch with
    hc | hc | hc | ⟨latest, _, _, _, hc⟩ <;>
    simp [main_flow, hc, upload_to_s3]

/-- Witness for `upload_returns_zero_branch_unreachable` at concrete
arguments. -/
theorem upload_returns_zero_branch_unreachable_witness :
    (upload_to_s3 "pre/f" "f" "bkt" 5).2 = some 0 ∧
    (main_flow noMatchMainEnv).1 ≠ ExitReason.s3Failed :=
  ⟨upload_returns_zero_branch_unreachable.1 "pre/f" "f" "bkt" 5,
    upload_returns_zero_branch_unreachable.2 noMatchMainEnv⟩
